import Mathlib

/-!
# Verification of the argos analysis-engine specification

This development shallowly embeds the parts of the repository that the
specification describes and proves the specified properties about them.

Two kinds of definitions appear:

* Definitions translated directly from source files present in the
  repository (the `good_code.cpp` `DataProcessor` class and the
  `template_utils.h` `max`/`min` templates).

* Definitions marked `Modelled from the spec:` — the analysis engine
  itself (lexer/parser, dataflow analyzer, rule engine, diagnostic
  aggregator) is not among the repository's source files; only its test
  fixtures are.  Those components are modelled faithfully from the
  specification's own description (sections 3, 4.2, 4.5, 4.7, 8).
-/

namespace GoodCode

/-- The `example::DataProcessor` class of `good_code.cpp`: fields
`name_`, `debug_` and `data_` (a vector of strings). -/
structure DataProcessor where
  name_ : String
  debug_ : Bool
  data_ : List String
deriving DecidableEq

/-- The constructor `DataProcessor(const std::string& name, bool debug = false)
: name_(name), debug_(debug) {}`; `data_` starts empty. -/
def DataProcessor.make (name : String) (debug : Bool) : DataProcessor :=
  ⟨name, debug, []⟩

/-- `add_data`: `data_.push_back(item);` then, when `debug_` is set, prints
`"Added item: " << item`.  The printed output is returned alongside the
updated object. -/
def DataProcessor.add_data (p : DataProcessor) (item : String) :
    DataProcessor × List String :=
  (⟨p.name_, p.debug_, p.data_ ++ [item]⟩,
   if p.debug_ then ["Added item: " ++ item] else [])

/-- `get_count`: `return data_.size();` -/
def DataProcessor.get_count (p : DataProcessor) : Nat :=
  p.data_.length

/-- Applying `add_data` once for each item of a list, starting from `p`. -/
def DataProcessor.add_all (p : DataProcessor) (items : List String) :
    DataProcessor :=
  items.foldl (fun q it => (q.add_data it).1) p

end GoodCode

namespace TemplateUtils

/-- `template<typename T> T max(T a, T b) { return (a > b) ? a : b; }`
from `template_utils.h`. -/
def max {T : Type} [LinearOrder T] (a b : T) : T :=
  if a > b then a else b

/-- `template<typename T> T min(T a, T b) { return (a < b) ? a : b; }`
from `template_utils.h`. -/
def min {T : Type} [LinearOrder T] (a b : T) : T :=
  if a < b then a else b

end TemplateUtils

namespace Anvil

/-- Modelled from the spec: Finding severity (`Error`/`Warning`/`Info`),
section 3 of the specification (the engine itself is not among the
repository's source files). -/
inductive Severity where
  | error
  | warning
  | info
deriving DecidableEq

/-- Numeric code of a severity, used only for the total order on findings. -/
def Severity.rank : Severity → Nat
  | .error => 0
  | .warning => 1
  | .info => 2

/-- Modelled from the spec: a source span `{file, line, column, endLine,
endColumn}` (sections 3 and 6). -/
structure Span where
  file : String
  line : Nat
  col : Nat
  endLine : Nat
  endCol : Nat
deriving DecidableEq

/-- Modelled from the spec: a Finding `{rule id, severity, message, primary
span, enclosing-function identity}` (section 3; the optional related spans
are omitted, no specified property concerns them). -/
structure Finding where
  ruleId : String
  severity : Severity
  message : String
  span : Span
  enclosingFn : String
deriving DecidableEq

/-- Modelled from the spec: the stable dedup key, "derived from (rule id,
primary span, enclosing-function identity)" (section 3). -/
def Finding.dedupKey (f : Finding) : String × Span × String :=
  (f.ruleId, f.span, f.enclosingFn)

/-- The lexicographic code a finding is sorted by: the specified tuple
(file, line, column, rule id) first, then the remaining fields so the
order is total and antisymmetric. -/
abbrev SortCode :=
  String ×ₗ (Nat ×ₗ (Nat ×ₗ (String ×ₗ (Nat ×ₗ (Nat ×ₗ (String ×ₗ (Nat ×ₗ String)))))))

def Finding.sortCode (f : Finding) : SortCode :=
  toLex (f.span.file, toLex (f.span.line, toLex (f.span.col, toLex (f.ruleId,
    toLex (f.span.endLine, toLex (f.span.endCol, toLex (f.enclosingFn,
      toLex (f.severity.rank, f.message))))))))

/-- The specified ordering tuple (file, line, column, rule id) of
section 3, lexicographically ordered. -/
def Finding.orderKey (f : Finding) : String ×ₗ (Nat ×ₗ (Nat ×ₗ String)) :=
  toLex (f.span.file, toLex (f.span.line, toLex (f.span.col, f.ruleId)))

theorem Severity.rank_injective : Function.Injective Severity.rank := by
  intro a b h
  cases a <;> cases b <;> simp_all [Severity.rank]

theorem Finding.sortCode_injective : Function.Injective Finding.sortCode := by
  intro f g h
  obtain ⟨rf, sf, mf, ⟨fl₁, l₁, c₁, el₁, ec₁⟩, ef⟩ := f
  obtain ⟨rg, sg, mg, ⟨fl₂, l₂, c₂, el₂, ec₂⟩, eg⟩ := g
  simp only [Finding.sortCode, toLex_inj, Prod.mk.injEq] at h
  obtain ⟨h₁, h₂, h₃, h₄, h₅, h₆, h₇, h₈, h₉⟩ := h
  have hsev : sf = sg := Severity.rank_injective h₈
  simp_all

/-- The total order findings are sorted in. -/
def findingLE (f g : Finding) : Prop :=
  f.sortCode ≤ g.sortCode

instance : DecidableRel findingLE := fun f g =>
  inferInstanceAs (Decidable (f.sortCode ≤ g.sortCode))

instance : IsTotal Finding findingLE :=
  ⟨fun f g => le_total f.sortCode g.sortCode⟩

instance : IsTrans Finding findingLE :=
  ⟨fun _ _ _ h₁ h₂ => le_trans h₁ h₂⟩

instance : IsAntisymm Finding findingLE :=
  ⟨fun _ _ h₁ h₂ => Finding.sortCode_injective (le_antisymm h₁ h₂)⟩

/-- Modelled from the spec: the deduplication step of the Diagnostic
Aggregator (section 4.7): keep a finding only when its dedup key has not
been seen before. -/
def dedupByKeyAux (seen : List (String × Span × String)) :
    List Finding → List Finding
  | [] => []
  | f :: rest =>
    if f.dedupKey ∈ seen then dedupByKeyAux seen rest
    else f :: dedupByKeyAux (f.dedupKey :: seen) rest

def dedupByKey (l : List Finding) : List Finding :=
  dedupByKeyAux [] l

/-- Modelled from the spec: the sorting step of the Diagnostic Aggregator,
by (file, line, column, rule id) and then the remaining fields (sections
3 and 4.7). -/
def findingsSort (l : List Finding) : List Finding :=
  l.insertionSort findingLE

/-- Modelled from the spec: `aggregate(all findings) -> Diagnostic Set`
(section 4.7): sort, then deduplicate by dedup key. -/
def aggregate (l : List Finding) : List Finding :=
  dedupByKey (findingsSort l)

theorem dedupByKeyAux_sublist (l : List Finding) :
    ∀ seen, (dedupByKeyAux seen l).Sublist l := by
  induction l with
  | nil => intro seen; simp [dedupByKeyAux]
  | cons f rest ih =>
    intro seen
    simp only [dedupByKeyAux]
    split
    · exact (ih seen).trans (List.sublist_cons_self f rest)
    · exact (ih (f.dedupKey :: seen)).cons₂ f

theorem dedupByKeyAux_spec (l : List Finding) :
    ∀ seen,
      (dedupByKeyAux seen l).Pairwise (fun a b => a.dedupKey ≠ b.dedupKey) ∧
      ∀ g ∈ dedupByKeyAux seen l, g.dedupKey ∉ seen := by
  induction l with
  | nil => intro seen; simp [dedupByKeyAux]
  | cons f rest ih =>
    intro seen
    simp only [dedupByKeyAux]
    split
    · obtain ⟨hp, hs⟩ := ih seen
      exact ⟨hp, hs⟩
    · rename_i hnot
      obtain ⟨hp, hs⟩ := ih (f.dedupKey :: seen)
      refine ⟨List.Pairwise.cons ?_ hp, ?_⟩
      · intro g hg
        have := hs g hg
        intro hkey
        exact this (hkey ▸ List.mem_cons_self _ _)
      · intro g hg
        rcases List.mem_cons.mp hg with hg | hg
        · subst hg; exact hnot
        · intro hmem
          exact hs g hg (List.mem_cons_of_mem _ hmem)

theorem aggregate_pairwise_keys (l : List Finding) :
    (aggregate l).Pairwise (fun a b => a.dedupKey ≠ b.dedupKey) :=
  (dedupByKeyAux_spec (findingsSort l) []).1

theorem aggregate_sorted_le (l : List Finding) :
    (aggregate l).Pairwise findingLE := by
  have hs : (findingsSort l).Pairwise findingLE :=
    List.sorted_insertionSort findingLE l
  exact List.Pairwise.sublist (dedupByKeyAux_sublist (findingsSort l) []) hs

theorem findingsSort_eq_of_perm {l₁ l₂ : List Finding} (h : l₁.Perm l₂) :
    findingsSort l₁ = findingsSort l₂ :=
  List.eq_of_perm_of_sorted
    ((List.perm_insertionSort findingLE l₁).trans
      (h.trans (List.perm_insertionSort findingLE l₂).symm))
    (List.sorted_insertionSort findingLE l₁)
    (List.sorted_insertionSort findingLE l₂)

theorem findingLE_orderKey {f g : Finding} (h : findingLE f g) :
    f.orderKey ≤ g.orderKey := by
  unfold findingLE Finding.sortCode at h
  unfold Finding.orderKey
  rw [Prod.Lex.le_iff] at h ⊢
  rcases h with h | ⟨hfile, h⟩
  · exact Or.inl h
  · refine Or.inr ⟨hfile, ?_⟩
    rw [Prod.Lex.le_iff] at h ⊢
    rcases h with h | ⟨hline, h⟩
    · exact Or.inl h
    · refine Or.inr ⟨hline, ?_⟩
      rw [Prod.Lex.le_iff] at h ⊢
      rcases h with h | ⟨hcol, h⟩
      · exact Or.inl h
      · refine Or.inr ⟨hcol, ?_⟩
        rw [Prod.Lex.le_iff] at h
        rcases h with h | ⟨hrule, _⟩
        · exact le_of_lt h
        · exact le_of_eq hrule

/-- Modelled from the spec: a rule of the Rule Engine, "a pure function
from (tree | token stream | CFG) to a list of findings" with a rule id
(sections 2 and 4.6); the upstream artifact type is a parameter. -/
structure Rule (σ : Type) where
  id : String
  run : σ → List Finding

/-- Modelled from the spec: the Rule Engine runs every registered rule and
collects the findings (section 4.6); rules "run in any order". -/
def runRules {σ : Type} (rules : List (Rule σ)) (src : σ) : List Finding :=
  rules.flatMap fun r => r.run src

/-- Modelled from the spec: the whole pipeline after the detector passes:
run the rules, then aggregate (sections 4.6 and 4.7). -/
def analyzeWith {σ : Type} (rules : List (Rule σ)) (src : σ) : List Finding :=
  aggregate (runRules rules src)

/-- Modelled from the spec: the pointer-validity lattice
{Unknown, Null, NonNullValid, Freed} of section 3. -/
inductive PtrState where
  | unknown
  | null
  | nonNullValid
  | freed
deriving DecidableEq

/-- Modelled from the spec: the initialization-state lattice
{Uninitialized, Initialized, MaybeInitialized, Unknown} of section 3. -/
inductive InitState where
  | uninitialized
  | initialized
  | maybeInitialized
  | unknownInit
deriving DecidableEq

/-- Modelled from the spec: a pointer-producing initializer — `nullptr` or
a `new` allocation — as exercised by the defect fixtures. -/
inductive PtrExpr where
  | nullLit
  | newAlloc
deriving DecidableEq

/-- Modelled from the spec: an integer-valued expression — an integer
literal, a variable read, or an expression the analysis does not track
(such as a parameter or a call). -/
inductive IntExpr where
  | lit (n : Int)
  | evar (x : String)
  | unknownExpr
deriving DecidableEq

/-- Modelled from the spec: the statement forms of a function body that
sections 4.5 and 8 describe the dataflow analyzer on — declarations with
or without initializer, assignments, stores through a pointer, `delete`,
literal-index array writes, divisions, and a two-way branch whose states
are merged by lattice join at the join point.  The engine itself is not
among the repository's source files. -/
inductive Stmt where
  | declInt (x : String) (ini : Option IntExpr) (sp : Span)
  | assignInt (x : String) (rhs : IntExpr) (sp : Span)
  | declPtr (x : String) (rhs : PtrExpr) (sp : Span)
  | assignPtr (x : String) (rhs : PtrExpr) (sp : Span)
  | storeThru (x : String) (sp : Span)
  | deleteStmt (x : String) (sp : Span)
  | declArr (x : String) (size : Nat) (sp : Span)
  | indexWrite (x : String) (idx : Nat) (sp : Span)
  | divStmt (num den : IntExpr) (sp : Span)
  | branch (thenB elseB : List Stmt)

/-- Modelled from the spec: what the dataflow analyzer tracks per symbol —
declaredness and kind, initialization state with a constant value when
known, pointer state, or a declared array bound (sections 3 and 4.5). -/
inductive VarInfo where
  | undeclared
  | intVar (ini : InitState) (val : Option Int)
  | ptrVar (ps : PtrState)
  | arrVar (size : Nat)
deriving DecidableEq

/-- The abstract state at a program point: one `VarInfo` per name. -/
def AbsState := String → VarInfo

def emptyState : AbsState := fun _ => .undeclared

def AbsState.update (σ : AbsState) (x : String) (v : VarInfo) : AbsState :=
  fun y => if y = x then v else σ y

/-- Modelled from the spec: "Initialized joins with Uninitialized →
MaybeInitialized" (section 4.5); equal states stay, Unknown absorbs. -/
def InitState.join (a b : InitState) : InitState :=
  if a = b then a
  else
    match a, b with
    | .unknownInit, _ => .unknownInit
    | _, .unknownInit => .unknownInit
    | _, _ => .maybeInitialized

/-- Modelled from the spec: "NonNullValid joins with Freed or Null →
conservatively Unknown-but-suspect" (section 4.5); equal states stay,
differing states join to Unknown. -/
def PtrState.join (a b : PtrState) : PtrState :=
  if a = b then a else .unknown

/-- Join of the tracked per-symbol information at a control-flow merge
point; a tracked constant survives only when both sides agree. -/
def VarInfo.join (a b : VarInfo) : VarInfo :=
  match a, b with
  | .intVar i₁ v₁, .intVar i₂ v₂ =>
      .intVar (i₁.join i₂) (if v₁ = v₂ then v₁ else none)
  | .ptrVar p₁, .ptrVar p₂ => .ptrVar (p₁.join p₂)
  | .arrVar s₁, .arrVar s₂ => if s₁ = s₂ then .arrVar s₁ else .undeclared
  | a, b => if a = b then a else .undeclared

def joinState (σ₁ σ₂ : AbsState) : AbsState :=
  fun x => (σ₁ x).join (σ₂ x)

/-- Modelled from the spec: "A read of a symbol whose state is
Uninitialized or MaybeInitialized at that program point yields an
UninitializedRead finding" (section 4.5). -/
def readFindings (fname : String) (σ : AbsState) (e : IntExpr) (sp : Span) :
    List Finding :=
  match e with
  | .evar y =>
    match σ y with
    | .intVar i _ =>
      if i = .uninitialized ∨ i = .maybeInitialized then
        [⟨"UninitializedRead", .error, "read of uninitialized variable",
          sp, fname⟩]
      else []
    | _ => []
  | _ => []

/-- The constant value of an expression under the abstract state, when the
analysis can track one. -/
def valOf (σ : AbsState) (e : IntExpr) : Option Int :=
  match e with
  | .lit n => some n
  | .evar y =>
    match σ y with
    | .intVar _ v => v
    | _ => none
  | .unknownExpr => none

def ptrValOf : PtrExpr → PtrState
  | .nullLit => .null
  | .newAlloc => .nonNullValid

mutual

/-- Modelled from the spec: one step of the flow-sensitive dataflow
analysis of section 4.5 — a dereference of a Null or Freed pointer yields
`NullDereference` or `UseAfterFree`; a second `delete` on a symbol already
Freed yields `DoubleFree`; a constant-divisor-is-zero division yields
`DivisionByZero`; a literal index at or beyond the declared bound yields
`OutOfBoundsAccess`; branch states are merged by lattice join.  Section
4.5's remaining defect rule, `ResourceLeak`, is not a per-statement rule
but an end-of-scope one; `analyzeBody` applies it after the body has been
stepped through. -/
def runStmt (fname : String) (σ : AbsState) : Stmt → AbsState × List Finding
  | .declInt x ini sp =>
    match ini with
    | none => (σ.update x (.intVar .uninitialized none), [])
    | some e =>
      (σ.update x (.intVar .initialized (valOf σ e)), readFindings fname σ e sp)
  | .assignInt x e sp =>
    (σ.update x (.intVar .initialized (valOf σ e)), readFindings fname σ e sp)
  | .declPtr x e _ => (σ.update x (.ptrVar (ptrValOf e)), [])
  | .assignPtr x e _ => (σ.update x (.ptrVar (ptrValOf e)), [])
  | .storeThru x sp =>
    (σ,
      match σ x with
      | .ptrVar .null =>
        [⟨"NullDereference", .error, "null pointer dereference", sp, fname⟩]
      | .ptrVar .freed =>
        [⟨"UseAfterFree", .error, "use after free", sp, fname⟩]
      | _ => [])
  | .deleteStmt x sp =>
    match σ x with
    | .ptrVar .freed => (σ, [⟨"DoubleFree", .error, "double free", sp, fname⟩])
    | _ => (σ.update x (.ptrVar .freed), [])
  | .declArr x n _ => (σ.update x (.arrVar n), [])
  | .indexWrite x i sp =>
    (σ,
      match σ x with
      | .arrVar n =>
        if n ≤ i then
          [⟨"OutOfBoundsAccess", .error, "index out of bounds", sp, fname⟩]
        else []
      | _ => [])
  | .divStmt num den sp =>
    let divFinds :=
      match den with
      | .lit n =>
        if n = 0 then
          [⟨"DivisionByZero", .error, "division by zero", sp, fname⟩]
        else []
      | .evar y =>
        match σ y with
        | .intVar _ (some v) =>
          if v = 0 then
            [⟨"DivisionByZero", .error, "division by zero", sp, fname⟩]
          else []
        | _ => []
      | .unknownExpr => []
    (σ, readFindings fname σ num sp ++ readFindings fname σ den sp ++ divFinds)
  | .branch thenB elseB =>
    let r₁ := runStmts fname σ thenB
    let r₂ := runStmts fname σ elseB
    (joinState r₁.1 r₂.1, r₁.2 ++ r₂.2)

/-- The analysis of a statement sequence, threading the abstract state. -/
def runStmts (fname : String) (σ : AbsState) :
    List Stmt → AbsState × List Finding
  | [] => (σ, [])
  | s :: rest =>
    let r₁ := runStmt fname σ s
    let r₂ := runStmts fname r₁.1 rest
    (r₂.1, r₁.2 ++ r₂.2)

end

mutual

/-- The allocation sites of a statement: the names a `new` allocation is
bound to, with the span of the allocating statement (branches included). -/
def allocSitesStmt : Stmt → List (String × Span)
  | .declPtr x .newAlloc sp => [(x, sp)]
  | .assignPtr x .newAlloc sp => [(x, sp)]
  | .branch thenB elseB => allocSites thenB ++ allocSites elseB
  | _ => []

def allocSites : List Stmt → List (String × Span)
  | [] => []
  | s :: rest => allocSitesStmt s ++ allocSites rest

end

mutual

/-- The names a `delete` is observed on anywhere in the statement
(branches included) — the "observed release" of section 4.5. -/
def releasedStmt : Stmt → List String
  | .deleteStmt x _ => [x]
  | .branch thenB elseB => released thenB ++ released elseB
  | _ => []

def released : List Stmt → List String
  | [] => []
  | s :: rest => releasedStmt s ++ released rest

end

/-- Modelled from the spec: "An allocation symbol that reaches the end of
its owning scope while still in state NonNullValid and with no observed
release anywhere in the function yields ResourceLeak" (section 4.5; a
memory-safety defect, hence Error severity by section 4.6).  `σ` is the
analyzer's state at the end of the function body. -/
def leakFindings (fname : String) (body : List Stmt) (σ : AbsState) :
    List Finding :=
  (allocSites body).filterMap fun p =>
    if σ p.1 = VarInfo.ptrVar .nonNullValid ∧ ¬ p.1 ∈ released body then
      some ⟨"ResourceLeak", .error, "allocation never released", p.2, fname⟩
    else none

/-- Modelled from the spec: the whole analysis of one function body — run
the dataflow defect detection from the empty state, apply the end-of-scope
ResourceLeak rule to the final state, and aggregate the findings into the
Diagnostic Set (sections 4.5 and 4.7). -/
def analyzeBody (fname : String) (body : List Stmt) : List Finding :=
  aggregate ((runStmts fname emptyState body).2 ++
    leakFindings fname body (runStmts fname emptyState body).1)

/-- The Error-severity findings of a list. -/
def errorFindings (l : List Finding) : List Finding :=
  l.filter fun f => decide (f.severity = .error)

/-- What the good-code discipline records about a pointer: definitely
valid, definitely null, definitely freed, or mixed across merged paths. -/
inductive GPtr where
  | live
  | nullp
  | freedp
  | topp
deriving DecidableEq

/-- What the good-code discipline records about a declared name: an
initialized integer (with its constant value when tracked), a pointer,
or an array of known bound. -/
inductive GKind where
  | gInt (val : Option Int)
  | gPtr (gs : GPtr)
  | gArr (size : Nat)
deriving DecidableEq

/-- Context of the good-code discipline: `none` means not declared. -/
def GCtx := String → Option GKind

def gempty : GCtx := fun _ => none

def GCtx.update (Γ : GCtx) (x : String) (k : GKind) : GCtx :=
  fun y => if y = x then some k else Γ y

def GPtr.join (a b : GPtr) : GPtr :=
  if a = b then a else .topp

def gjoinKind : Option GKind → Option GKind → Option GKind
  | some (.gInt v₁), some (.gInt v₂) =>
      some (.gInt (if v₁ = v₂ then v₁ else none))
  | some (.gPtr p₁), some (.gPtr p₂) => some (.gPtr (p₁.join p₂))
  | some (.gArr s₁), some (.gArr s₂) =>
      if s₁ = s₂ then some (.gArr s₁) else none
  | _, _ => none

def gjoin (Γ₁ Γ₂ : GCtx) : GCtx :=
  fun x => gjoinKind (Γ₁ x) (Γ₂ x)

/-- A read is good when it reads a literal, an untracked expression, or a
declared and initialized integer variable (correct scoping and
initialization). -/
def goodRead (Γ : GCtx) : IntExpr → Bool
  | .lit _ => true
  | .unknownExpr => true
  | .evar y =>
    match Γ y with
    | some (.gInt _) => true
    | _ => false

def gvalOf (Γ : GCtx) : IntExpr → Option Int
  | .lit n => some n
  | .evar y =>
    match Γ y with
    | some (.gInt v) => v
    | _ => none
  | .unknownExpr => none

/-- A divisor is good when it is a nonzero literal, an untracked
expression, or an integer variable whose tracked constant is not zero
(no literal-zero divisions). -/
def goodDivisor (Γ : GCtx) : IntExpr → Bool
  | .lit n => decide (n ≠ 0)
  | .evar y =>
    match Γ y with
    | some (.gInt v) => decide (v ≠ some 0)
    | _ => false
  | .unknownExpr => true

def gptrOf : PtrExpr → GPtr
  | .nullLit => .nullp
  | .newAlloc => .live

mutual

/-- The good-code conditions of section 8 of the specification, as a
discipline on function bodies: every declaration carries an initializer,
every use is of a declared name of the right kind (correct scoping),
pointers are dereferenced and released only while definitely valid,
divisors are never a tracked zero, and literal indices stay inside the
declared bound.  Returns the resulting context, or `none` when the body
violates the discipline. -/
def goodStmt (Γ : GCtx) : Stmt → Option GCtx
  | .declInt _ none _ => none
  | .declInt x (some e) _ =>
    if goodRead Γ e then some (Γ.update x (.gInt (gvalOf Γ e))) else none
  | .assignInt x e _ =>
    if goodRead Γ e then some (Γ.update x (.gInt (gvalOf Γ e))) else none
  | .declPtr x e _ => some (Γ.update x (.gPtr (gptrOf e)))
  | .assignPtr x e _ => some (Γ.update x (.gPtr (gptrOf e)))
  | .storeThru x _ =>
    if Γ x = some (.gPtr .live) then some Γ else none
  | .deleteStmt x _ =>
    if Γ x = some (.gPtr .live) then some (Γ.update x (.gPtr .freedp))
    else none
  | .declArr x n _ => some (Γ.update x (.gArr n))
  | .indexWrite x i _ =>
    match Γ x with
    | some (.gArr n) => if i < n then some Γ else none
    | _ => none
  | .divStmt num den _ =>
    if goodRead Γ num && goodRead Γ den && goodDivisor Γ den then some Γ
    else none
  | .branch thenB elseB =>
    match goodStmts Γ thenB, goodStmts Γ elseB with
    | some Γ₁, some Γ₂ => some (gjoin Γ₁ Γ₂)
    | _, _ => none

def goodStmts (Γ : GCtx) : List Stmt → Option GCtx
  | [] => some Γ
  | s :: rest =>
    match goodStmt Γ s with
    | some Γ₁ => goodStmts Γ₁ rest
    | none => none

end

/-- The abstract pointer state the analyzer assigns to each good-code
pointer record. -/
def gptrToPtrState : GPtr → PtrState
  | .live => .nonNullValid
  | .nullp => .null
  | .freedp => .freed
  | .topp => .unknown

/-- The analyzer's per-symbol information corresponding to a good-code
context entry. -/
def kindInfo : Option GKind → VarInfo
  | none => .undeclared
  | some (.gInt v) => .intVar .initialized v
  | some (.gPtr g) => .ptrVar (gptrToPtrState g)
  | some (.gArr n) => .arrVar n

def ctxState (Γ : GCtx) : AbsState :=
  fun x => kindInfo (Γ x)

/-- The good-code discipline for a whole function body: the statement
discipline holds throughout, and every allocation site is either released
somewhere in the function or no longer definitely valid when the body
ends — good code does not leak its allocations. -/
def goodBody (body : List Stmt) : Option GCtx :=
  match goodStmts gempty body with
  | none => none
  | some Γ' =>
    if (allocSites body).all
        (fun p => decide (p.1 ∈ released body) ||
          decide (Γ' p.1 ≠ some (.gPtr .live))) then
      some Γ'
    else none

theorem kindInfo_eq_live {k : Option GKind}
    (h : kindInfo k = .ptrVar .nonNullValid) : k = some (.gPtr .live) := by
  rcases k with _ | (v | p | s)
  · simp [kindInfo] at h
  · simp [kindInfo] at h
  · cases p <;> simp_all [kindInfo, gptrToPtrState]
  · simp [kindInfo] at h

/-- Under the good-code release requirement, the end-of-scope ResourceLeak
rule emits nothing. -/
theorem leakFindings_of_good (fname : String) (body : List Stmt) (Γ' : GCtx)
    (hall : (allocSites body).all
      (fun p => decide (p.1 ∈ released body) ||
        decide (Γ' p.1 ≠ some (.gPtr .live))) = true) :
    leakFindings fname body (ctxState Γ') = [] := by
  unfold leakFindings
  rw [List.filterMap_eq_nil_iff]
  intro p hp
  have hor := List.all_eq_true.mp hall p hp
  simp only [Bool.or_eq_true, decide_eq_true_eq] at hor
  rcases hor with hrel | hnl
  · exact if_neg fun hc => hc.2 hrel
  · exact if_neg fun hc => hnl (kindInfo_eq_live hc.1)

/-- Modelled from the spec: the token kinds the parser model distinguishes
(section 3; `unknownTok` is the `Unknown` kind the lexer emits for an
unrecognized character, section 4.1). -/
inductive TokKind where
  | identTok
  | numberTok
  | kwReturn
  | lbrace
  | rbrace
  | semi
  | unknownTok
deriving DecidableEq

/-- Modelled from the spec: a Token `{kind, lexeme, line, column}`
(section 3; the lexeme adds nothing over the kind here). -/
structure Token where
  kind : TokKind
  line : Nat
  col : Nat
deriving DecidableEq

/-- Modelled from the spec: a `SyntaxError {expected, found, span}`
(section 4.2). -/
structure SyntaxError where
  expected : String
  found : String
  line : Nat
  col : Nat
deriving DecidableEq

/-- Modelled from the spec: syntax-tree node kinds (section 3), with a
placeholder `errorNode` kind for recovery (section 4.2). -/
inductive NodeKind where
  | translationUnit
  | returnStmt
  | exprStmt
  | blockStmt
  | exprLeaf
  | errorNode
deriving DecidableEq

/-- How many children each node kind mandates: a `return` statement and an
expression statement each carry one expression child. -/
def NodeKind.requiredChildren : NodeKind → Nat
  | .returnStmt => 1
  | .exprStmt => 1
  | _ => 0

/-- Modelled from the spec: a SyntaxNode owning its children, with a
source position (section 3). -/
inductive SyntaxNode where
  | node (kind : NodeKind) (children : List SyntaxNode) (line col : Nat)

mutual

/-- A tree is well-formed when no node has fewer children than its kind
mandates (section 4.2). -/
def SyntaxNode.wellFormed : SyntaxNode → Bool
  | .node k cs _ _ => decide (k.requiredChildren ≤ cs.length) && wellFormedList cs

def wellFormedList : List SyntaxNode → Bool
  | [] => true
  | n :: rest => n.wellFormed && wellFormedList rest

end

def tokText : TokKind → String
  | .identTok => "identifier"
  | .numberTok => "number"
  | .kwReturn => "return"
  | .lbrace => "open brace"
  | .rbrace => "close brace"
  | .semi => "semicolon"
  | .unknownTok => "unknown character"

def mkErr (expected : String) (t : Token) : SyntaxError :=
  ⟨expected, tokText t.kind, t.line, t.col⟩

def eofErr (expected : String) : SyntaxError :=
  ⟨expected, "end of file", 0, 0⟩

/-- The summary UnbalancedDelimiter error, anchored at the unmatched
opening delimiter (section 4.2). -/
def unbalancedErr (t : Token) : SyntaxError :=
  ⟨"UnbalancedDelimiter: matching close brace", "end of file", t.line, t.col⟩

def exprLeafOf (t : Token) : SyntaxNode := .node .exprLeaf [] t.line t.col

def errLeaf (line col : Nat) : SyntaxNode := .node .errorNode [] line col

/-- Modelled from the spec: resynchronization (section 4.2) — skip tokens
until just after a statement boundary `;`, or stop before a `}` (the
enclosing construct's) or end of file. -/
def resync : List Token → List Token
  | [] => []
  | t :: rest =>
    match t.kind with
    | .semi => rest
    | .rbrace => t :: rest
    | _ => resync rest

mutual

/-- Modelled from the spec: recursive-descent parsing of one statement
with explicit recovery (section 4.2): on an expected-token mismatch,
record a SyntaxError, resynchronize, and produce a placeholder error node
so the tree never lacks mandated children.  `fuel` bounds the recursion
and makes termination structural; `parse` supplies ample fuel, and the
well-formedness guarantee holds for every fuel. -/
def parseStmt (fuel : Nat) (t : Token) (rest : List Token) :
    SyntaxNode × List SyntaxError × List Token :=
  match fuel with
  | 0 => (errLeaf t.line t.col, [], rest)
  | fuel + 1 =>
    match t.kind with
    | .kwReturn =>
      match rest with
      | [] =>
        (.node .returnStmt [errLeaf t.line t.col] t.line t.col,
         [eofErr "expression"], [])
      | e :: rest₁ =>
        if e.kind = .identTok ∨ e.kind = .numberTok then
          match rest₁ with
          | [] =>
            (.node .returnStmt [exprLeafOf e] t.line t.col,
             [eofErr "semicolon"], [])
          | s :: rest₂ =>
            if s.kind = .semi then
              (.node .returnStmt [exprLeafOf e] t.line t.col, [], rest₂)
            else
              (.node .returnStmt [exprLeafOf e] t.line t.col,
               [mkErr "semicolon" s], resync (s :: rest₂))
        else
          (.node .returnStmt [errLeaf e.line e.col] t.line t.col,
           [mkErr "expression" e], resync (e :: rest₁))
    | .lbrace =>
      let r := parseStmts fuel rest
      match r.2.2 with
      | [] =>
        (.node .blockStmt r.1 t.line t.col, r.2.1 ++ [unbalancedErr t], [])
      | _ :: rest₁ => (.node .blockStmt r.1 t.line t.col, r.2.1, rest₁)
    | .identTok =>
      match rest with
      | [] =>
        (.node .exprStmt [exprLeafOf t] t.line t.col, [eofErr "semicolon"], [])
      | s :: rest₁ =>
        if s.kind = .semi then
          (.node .exprStmt [exprLeafOf t] t.line t.col, [], rest₁)
        else
          (.node .exprStmt [exprLeafOf t] t.line t.col,
           [mkErr "semicolon" s], resync (s :: rest₁))
    | .numberTok =>
      match rest with
      | [] =>
        (.node .exprStmt [exprLeafOf t] t.line t.col, [eofErr "semicolon"], [])
      | s :: rest₁ =>
        if s.kind = .semi then
          (.node .exprStmt [exprLeafOf t] t.line t.col, [], rest₁)
        else
          (.node .exprStmt [exprLeafOf t] t.line t.col,
           [mkErr "semicolon" s], resync (s :: rest₁))
    | _ => (errLeaf t.line t.col, [mkErr "statement" t], rest)

/-- Modelled from the spec: parsing a statement sequence up to a closing
brace or end of file (section 4.2). -/
def parseStmts (fuel : Nat) (toks : List Token) :
    List SyntaxNode × List SyntaxError × List Token :=
  match fuel with
  | 0 => ([], [], toks)
  | fuel + 1 =>
    match toks with
    | [] => ([], [], [])
    | t :: rest =>
      if t.kind = .rbrace then ([], [], t :: rest)
      else
        let r₁ := parseStmt fuel t rest
        let r₂ := parseStmts fuel r₁.2.2
        (r₁.1 :: r₂.1, r₁.2.1 ++ r₂.2.1, r₂.2.2)

end

/-- Modelled from the spec: the top level of the parser — statements up to
end of file; a stray close brace is an error that is consumed so parsing
resumes (section 4.2). -/
def parseTop (fuel : Nat) (toks : List Token) :
    List SyntaxNode × List SyntaxError × List Token :=
  match fuel with
  | 0 => ([], [], toks)
  | fuel + 1 =>
    match toks with
    | [] => ([], [], [])
    | t :: rest =>
      let r₁ :=
        if t.kind = .rbrace then
          (errLeaf t.line t.col, [mkErr "statement" t], rest)
        else parseStmt fuel t rest
      let r₂ := parseTop fuel r₁.2.2
      (r₁.1 :: r₂.1, r₁.2.1 ++ r₂.2.1, r₂.2.2)

/-- Modelled from the spec: `parse(tokens) -> (SyntaxTree, sequence of
SyntaxError)` (section 4.2). -/
def parse (toks : List Token) : SyntaxNode × List SyntaxError :=
  let r := parseTop (2 * toks.length + 2) toks
  (.node .translationUnit r.1 1 1, r.2.1)

mutual

/-- Whatever the input and the fuel, a parsed statement node is
well-formed: placeholder error nodes fill every mandated child slot. -/
theorem parseStmt_wf (fuel : Nat) (t : Token) (rest : List Token) :
    (parseStmt fuel t rest).1.wellFormed = true := by
  match fuel with
  | 0 => rfl
  | fuel + 1 =>
    have hblock := parseStmts_wf fuel rest
    simp only [parseStmt]
    repeat' split
    all_goals
      simp_all [SyntaxNode.wellFormed, wellFormedList, errLeaf, exprLeafOf,
        NodeKind.requiredChildren]

theorem parseStmts_wf (fuel : Nat) (toks : List Token) :
    wellFormedList (parseStmts fuel toks).1 = true := by
  match fuel with
  | 0 => rfl
  | fuel + 1 =>
    simp only [parseStmts]
    split
    · rfl
    · split
      · rfl
      · rename_i t rest _
        have h₁ := parseStmt_wf fuel t rest
        have h₂ := parseStmts_wf fuel (parseStmt fuel t rest).2.2
        simp_all [wellFormedList]

end

theorem parseTop_wf (fuel : Nat) (toks : List Token) :
    wellFormedList (parseTop fuel toks).1 = true := by
  induction fuel generalizing toks with
  | zero => rfl
  | succ fuel ih =>
    simp only [parseTop]
    split
    · rfl
    · rename_i t rest
      split
      · rename_i hrb
        simp [wellFormedList, SyntaxNode.wellFormed, errLeaf, ih,
          NodeKind.requiredChildren]
      · rename_i hrb
        have h₁ := parseStmt_wf fuel t rest
        simp_all [wellFormedList, ih]

theorem kindInfo_join (a b : Option GKind) :
    kindInfo (gjoinKind a b) = (kindInfo a).join (kindInfo b) := by
  rcases a with _ | (v₁ | p₁ | s₁) <;> rcases b with _ | (v₂ | p₂ | s₂) <;>
    first
      | rfl
      | (cases p₁ <;> cases p₂ <;> rfl)
      | (simp only [gjoinKind]; split_ifs <;>
          simp_all [kindInfo, VarInfo.join])

theorem ctxState_update (Γ : GCtx) (x : String) (k : GKind) :
    ctxState (Γ.update x k) = (ctxState Γ).update x (kindInfo (some k)) := by
  funext y
  simp only [ctxState, GCtx.update, AbsState.update]
  split <;> rfl

theorem ctxState_gjoin (Γ₁ Γ₂ : GCtx) :
    ctxState (gjoin Γ₁ Γ₂) = joinState (ctxState Γ₁) (ctxState Γ₂) := by
  funext y
  simp only [ctxState, gjoin, joinState, kindInfo_join]

theorem valOf_ctxState (Γ : GCtx) (e : IntExpr) :
    valOf (ctxState Γ) e = gvalOf Γ e := by
  cases e with
  | lit n => rfl
  | evar y =>
    simp only [valOf, gvalOf, ctxState]
    rcases Γ y with _ | (v | p | s) <;> rfl
  | unknownExpr => rfl

theorem readFindings_of_goodRead {Γ : GCtx} {e : IntExpr}
    (h : goodRead Γ e = true) (fname : String) (sp : Span) :
    readFindings fname (ctxState Γ) e sp = [] := by
  cases e with
  | lit n => rfl
  | evar y =>
    simp only [goodRead] at h
    simp only [readFindings, ctxState]
    rcases hy : Γ y with _ | (v | p | s) <;> rw [hy] at h <;>
      simp_all [kindInfo]
  | unknownExpr => rfl

mutual

/-- Whether a statement (possibly inside a branch) writes the name `y` —
declares it, assigns it, or releases it. -/
def writesVar (y : String) : Stmt → Bool
  | .declInt x _ _ => decide (x = y)
  | .assignInt x _ _ => decide (x = y)
  | .declPtr x _ _ => decide (x = y)
  | .assignPtr x _ _ => decide (x = y)
  | .deleteStmt x _ => decide (x = y)
  | .declArr x _ _ => decide (x = y)
  | .storeThru _ _ => false
  | .indexWrite _ _ _ => false
  | .divStmt _ _ _ => false
  | .branch thenB elseB => writesVarList y thenB || writesVarList y elseB

def writesVarList (y : String) : List Stmt → Bool
  | [] => false
  | s :: rest => writesVar y s || writesVarList y rest

end

theorem VarInfo.join_self (a : VarInfo) : a.join a = a := by
  cases a <;> simp [VarInfo.join, InitState.join, PtrState.join]

mutual

/-- A statement that does not write `y` leaves the analyzer's information
about `y` unchanged. -/
theorem runStmt_preserves (fname y : String) (σ : AbsState) (s : Stmt)
    (h : writesVar y s = false) : (runStmt fname σ s).1 y = σ y := by
  cases s with
  | declInt x ini sp =>
    have hne : ¬ y = x := fun hc =>
      (of_decide_eq_false h) hc.symm
    cases ini <;> simp [runStmt, AbsState.update, hne]
  | assignInt x e sp =>
    have hne : ¬ y = x := fun hc => (of_decide_eq_false h) hc.symm
    simp [runStmt, AbsState.update, hne]
  | declPtr x e sp =>
    have hne : ¬ y = x := fun hc => (of_decide_eq_false h) hc.symm
    simp [runStmt, AbsState.update, hne]
  | assignPtr x e sp =>
    have hne : ¬ y = x := fun hc => (of_decide_eq_false h) hc.symm
    simp [runStmt, AbsState.update, hne]
  | storeThru x sp => rfl
  | deleteStmt x sp =>
    have hne : ¬ y = x := fun hc => (of_decide_eq_false h) hc.symm
    simp only [runStmt]
    split
    · rfl
    · simp [AbsState.update, hne]
  | declArr x n sp =>
    have hne : ¬ y = x := fun hc => (of_decide_eq_false h) hc.symm
    simp [runStmt, AbsState.update, hne]
  | indexWrite x i sp => rfl
  | divStmt num den sp => rfl
  | branch thenB elseB =>
    simp only [writesVar, Bool.or_eq_false_iff] at h
    have h₁ := runStmts_preserves fname y σ thenB h.1
    have h₂ := runStmts_preserves fname y σ elseB h.2
    simp [runStmt, joinState, h₁, h₂, VarInfo.join_self]

theorem runStmts_preserves (fname y : String) (σ : AbsState) (l : List Stmt)
    (h : writesVarList y l = false) : (runStmts fname σ l).1 y = σ y := by
  cases l with
  | nil => rfl
  | cons s rest =>
    simp only [writesVarList, Bool.or_eq_false_iff] at h
    have h₂ := runStmts_preserves fname y (runStmt fname σ s).1 rest h.2
    have h₁ := runStmt_preserves fname y σ s h.1
    simp only [runStmts]
    rw [h₂, h₁]

end

/-- Running an appended statement list runs the two parts in sequence and
appends their findings. -/
theorem runStmts_append (fname : String) (σ : AbsState) (l₁ l₂ : List Stmt) :
    runStmts fname σ (l₁ ++ l₂) =
      ((runStmts fname (runStmts fname σ l₁).1 l₂).1,
       (runStmts fname σ l₁).2 ++
         (runStmts fname (runStmts fname σ l₁).1 l₂).2) := by
  induction l₁ generalizing σ with
  | nil => simp [runStmts]
  | cons s rest ih => simp [runStmts, ih]

/-- Every finding handed to the aggregator is represented in the
Diagnostic Set by a finding with the same dedup key. -/
theorem dedupByKeyAux_key_complete (l : List Finding) :
    ∀ seen f, f ∈ l → f.dedupKey ∉ seen →
      ∃ g ∈ dedupByKeyAux seen l, g.dedupKey = f.dedupKey := by
  induction l with
  | nil => simp
  | cons f₀ rest ih =>
    intro seen f hf hseen
    simp only [dedupByKeyAux]
    split
    · rename_i hmem
      rcases List.mem_cons.mp hf with rfl | hf'
      · exact absurd hmem hseen
      · exact ih seen f hf' hseen
    · rename_i hmem
      rcases List.mem_cons.mp hf with rfl | hf'
      · exact ⟨f, List.mem_cons_self _ _, rfl⟩
      · by_cases hk : f.dedupKey = f₀.dedupKey
        · exact ⟨f₀, List.mem_cons_self _ _, hk.symm⟩
        · obtain ⟨g, hg, hgk⟩ := ih (f₀.dedupKey :: seen) f hf' (by
            intro hc
            rcases List.mem_cons.mp hc with hc | hc
            · exact hk hc
            · exact hseen hc)
          exact ⟨g, List.mem_cons_of_mem _ hg, hgk⟩

theorem mem_aggregate_key {l : List Finding} {f : Finding} (hf : f ∈ l) :
    ∃ g ∈ aggregate l, g.dedupKey = f.dedupKey := by
  have hsorted : f ∈ findingsSort l :=
    ((List.perm_insertionSort findingLE l).mem_iff).mpr hf
  exact dedupByKeyAux_key_complete (findingsSort l) [] f hsorted
    (List.not_mem_nil _)

mutual

/-- Under the good-code discipline, every analysis step emits no finding
at all and tracks exactly the state the discipline predicts. -/
theorem good_runStmt (fname : String) (Γ Γ' : GCtx) (s : Stmt)
    (h : goodStmt Γ s = some Γ') :
    runStmt fname (ctxState Γ) s = (ctxState Γ', []) := by
  cases s with
  | declInt x ini sp =>
    cases ini with
    | none => simp [goodStmt] at h
    | some e =>
      simp only [goodStmt] at h
      split at h
      · rename_i hg
        injection h with h
        subst h
        rw [ctxState_update]
        simp [runStmt, readFindings_of_goodRead hg, valOf_ctxState, kindInfo]
      · exact absurd h (by simp)
  | assignInt x e sp =>
    simp only [goodStmt] at h
    split at h
    · rename_i hg
      injection h with h
      subst h
      rw [ctxState_update]
      simp [runStmt, readFindings_of_goodRead hg, valOf_ctxState, kindInfo]
    · exact absurd h (by simp)
  | declPtr x e sp =>
    injection h with h
    subst h
    rw [ctxState_update]
    cases e <;> rfl
  | assignPtr x e sp =>
    injection h with h
    subst h
    rw [ctxState_update]
    cases e <;> rfl
  | storeThru x sp =>
    simp only [goodStmt] at h
    split at h
    · rename_i hx
      injection h with h
      subst h
      simp [runStmt, ctxState, hx, kindInfo, gptrToPtrState]
    · exact absurd h (by simp)
  | deleteStmt x sp =>
    simp only [goodStmt] at h
    split at h
    · rename_i hx
      injection h with h
      subst h
      rw [ctxState_update]
      simp [runStmt, ctxState, hx, kindInfo, gptrToPtrState]
    · exact absurd h (by simp)
  | declArr x n sp =>
    injection h with h
    subst h
    rw [ctxState_update]
    rfl
  | indexWrite x i sp =>
    simp only [goodStmt] at h
    rcases hx : Γ x with _ | (v | p | n) <;> rw [hx] at h
    · exact Option.noConfusion h
    · exact Option.noConfusion h
    · exact Option.noConfusion h
    · have h' : (if i < n then some Γ else none) = some Γ' := h
      split at h'
      · rename_i hlt
        injection h' with h'
        subst h'
        have hni : ¬ n ≤ i := by omega
        simp [runStmt, ctxState, hx, kindInfo, hni]
      · exact Option.noConfusion h'
  | divStmt num den sp =>
    simp only [goodStmt] at h
    split at h
    · rename_i hg
      injection h with h
      subst h
      simp only [Bool.and_eq_true] at hg
      obtain ⟨⟨hnum, hden⟩, hdiv⟩ := hg
      simp only [runStmt, readFindings_of_goodRead hnum,
        readFindings_of_goodRead hden, List.nil_append]
      cases den with
      | lit n =>
        simp only [goodDivisor, decide_eq_true_eq] at hdiv
        simp [hdiv]
      | evar y =>
        simp only [goodDivisor] at hdiv
        rcases hy : Γ y with _ | (v | p | n) <;> rw [hy] at hdiv <;>
          try exact Bool.noConfusion hdiv
        have hv : v ≠ some 0 := of_decide_eq_true hdiv
        have hys : ctxState Γ y = .intVar .initialized v := by
          simp [ctxState, hy, kindInfo]
        rcases v with _ | w
        · simp [hys]
        · have hw : ¬ w = 0 := fun hww => hv (by rw [hww])
          simp [hys, hw]
      | unknownExpr => simp
    · exact absurd h (by simp)
  | branch thenB elseB =>
    simp only [goodStmt] at h
    rcases hT : goodStmts Γ thenB with _ | Γ₁ <;> rw [hT] at h
    · exact Option.noConfusion h
    · rcases hE : goodStmts Γ elseB with _ | Γ₂ <;> rw [hE] at h
      · exact Option.noConfusion h
      · injection h with h
        subst h
        have h₁ := good_runStmts fname Γ Γ₁ thenB hT
        have h₂ := good_runStmts fname Γ Γ₂ elseB hE
        simp [runStmt, h₁, h₂, ctxState_gjoin]

theorem good_runStmts (fname : String) (Γ Γ' : GCtx) (l : List Stmt)
    (h : goodStmts Γ l = some Γ') :
    runStmts fname (ctxState Γ) l = (ctxState Γ', []) := by
  cases l with
  | nil =>
    injection h with h
    subst h
    rfl
  | cons s rest =>
    simp only [goodStmts] at h
    rcases hS : goodStmt Γ s with _ | Γ₁ <;> rw [hS] at h
    · exact Option.noConfusion h
    · have h₁ := good_runStmt fname Γ Γ₁ s hS
      have h₂ := good_runStmts fname Γ₁ Γ' rest h
      simp [runStmts, h₁, h₂]

end

end Anvil

section AggregatorTheorems

open Anvil

/-- C5: no-duplicate invariant — for every list of findings collected from
the passes, no two Findings in the Diagnostic Set returned by `aggregate`
share an identical dedup key (rule id, primary span, enclosing function). -/
theorem aggregate_no_duplicate_keys (l : List Finding) :
    (Anvil.aggregate l).Pairwise (fun a b => a.dedupKey ≠ b.dedupKey) :=
  aggregate_pairwise_keys l

/-- C6: ordering invariant — for every list of findings collected from the
passes, the Diagnostic Set returned by `aggregate` is sorted ascending by
the tuple (file, line, column, rule id). -/
theorem aggregate_sorted_by_position (l : List Finding) :
    List.Sorted (fun a b : Finding => a.orderKey ≤ b.orderKey)
      (Anvil.aggregate l) :=
  List.Pairwise.imp (fun h => findingLE_orderKey h) (aggregate_sorted_le l)

/-- C7: determinism — for a fixed source and rule set, re-running the
analysis yields an identical Diagnostic Set, and the Diagnostic Set does
not depend on the order the rules are iterated in: any permutation of the
rule list yields an identical result. -/
theorem analyze_deterministic {σ : Type} (rules₁ rules₂ : List (Rule σ))
    (src : σ) (h : rules₁.Perm rules₂) :
    Anvil.analyzeWith rules₁ src = Anvil.analyzeWith rules₁ src ∧
    Anvil.analyzeWith rules₁ src = Anvil.analyzeWith rules₂ src := by
  refine ⟨rfl, ?_⟩
  unfold Anvil.analyzeWith Anvil.runRules Anvil.aggregate
  rw [findingsSort_eq_of_perm (h.flatMap_right fun r => r.run src)]

/-- A sample finding, as a defect rule would emit it. -/
def sampleFindingA : Finding :=
  ⟨"NullDereference", .error, "null pointer dereference",
    ⟨"a.cpp", 3, 5, 3, 9⟩, "f"⟩

/-- A second sample finding, from an independent rule. -/
def sampleFindingB : Finding :=
  ⟨"UnusedVariable", .warning, "unused variable",
    ⟨"a.cpp", 5, 9, 5, 15⟩, "g"⟩

def sampleRuleA : Rule Unit := ⟨"NullDereference", fun _ => [sampleFindingA]⟩

def sampleRuleB : Rule Unit := ⟨"UnusedVariable", fun _ => [sampleFindingB]⟩

/-- Witness for C7 at a concrete rule registry and source: swapping the two
rules leaves the Diagnostic Set unchanged. -/
theorem analyze_deterministic_witness :
    Anvil.analyzeWith [sampleRuleA, sampleRuleB] () =
      Anvil.analyzeWith [sampleRuleA, sampleRuleB] () ∧
    Anvil.analyzeWith [sampleRuleA, sampleRuleB] () =
      Anvil.analyzeWith [sampleRuleB, sampleRuleA] () :=
  analyze_deterministic [sampleRuleA, sampleRuleB] [sampleRuleB, sampleRuleA]
    () (List.Perm.swap sampleRuleB sampleRuleA [])

end AggregatorTheorems

section AnalyzerTheorems

open Anvil

/-- C1: sound on good code — every function body that satisfies the
good-code discipline (all declarations initialized, all uses correctly
scoped and of declared names, pointers dereferenced and released only
while valid, every allocation released or invalidated before the body
ends, no tracked-zero divisors, no out-of-range literal indices;
delimiters are balanced by construction of the statement tree) is analyzed
to a Diagnostic Set with zero Error-severity Findings. -/
theorem good_code_zero_error_findings (fname : String) (body : List Stmt)
    (h : (goodBody body).isSome = true) :
    Anvil.errorFindings (Anvil.analyzeBody fname body) = [] := by
  obtain ⟨Γ', hΓ⟩ := Option.isSome_iff_exists.mp h
  unfold goodBody at hΓ
  rcases hgs : goodStmts gempty body with _ | Γ₀ <;> rw [hgs] at hΓ
  · exact Option.noConfusion hΓ
  · have hΓ' :
        (if (allocSites body).all
            (fun p => decide (p.1 ∈ released body) ||
              decide (Γ₀ p.1 ≠ some (.gPtr .live))) then some Γ₀
          else none) = some Γ' := hΓ
    split at hΓ'
    · rename_i hall
      injection hΓ' with hΓ'
      have hrun := good_runStmts fname gempty Γ₀ body hgs
      have hempty : ctxState gempty = emptyState := funext fun _ => rfl
      rw [hempty] at hrun
      have hleak := leakFindings_of_good fname body Γ₀ hall
      unfold Anvil.analyzeBody
      rw [hrun]
      show Anvil.errorFindings
        (aggregate ([] ++ leakFindings fname body (ctxState Γ₀))) = []
      rw [hleak]
      rfl
    · exact Option.noConfusion hΓ'

/-- A span inside the good-code reference file. -/
def goodSpan (l c : Nat) : Span := ⟨"good_code.cpp", l, c, l, c + 10⟩

/-- A function body exercising every construct of the model in a
well-formed way: initialized declarations, a branch whose states merge at
the join, a valid pointer use and release, an in-bounds literal index, and
a division with nonzero divisor. -/
def exampleGoodBody : List Stmt :=
  [ .declInt "sum" (some (.lit 0)) (goodSpan 21 5),
    .branch [.assignInt "sum" .unknownExpr (goodSpan 23 9)] [],
    .declPtr "p" .newAlloc (goodSpan 30 5),
    .storeThru "p" (goodSpan 31 5),
    .deleteStmt "p" (goodSpan 32 5),
    .declArr "arr" 10 (goodSpan 33 5),
    .indexWrite "arr" 9 (goodSpan 34 5),
    .divStmt (.evar "sum") (.lit 2) (goodSpan 35 5) ]

/-- Witness for C1 at a concrete well-formed body. -/
theorem good_code_zero_error_findings_witness :
    Anvil.errorFindings (Anvil.analyzeBody "calculate_sum" exampleGoodBody)
      = [] :=
  good_code_zero_error_findings "calculate_sum" exampleGoodBody rfl

/-- C2: a function whose body is `int* ptr = nullptr; *ptr = 42;` is
analyzed to exactly one Finding — a `NullDereference` anchored at the span
of the dereference statement — whatever the function name and the
statement positions. -/
theorem null_deref_exactly_one_finding (fname : String) (sp₁ sp₂ : Span) :
    Anvil.analyzeBody fname
      [.declPtr "ptr" .nullLit sp₁, .storeThru "ptr" sp₂] =
      [⟨"NullDereference", .error, "null pointer dereference", sp₂, fname⟩] :=
  rfl

/-- C3: a function whose body is `int* p = new int(1); delete p; delete p;`
is analyzed to exactly one Finding — a `DoubleFree` on the second `delete`
and none on the first — and an intervening reassignment of the pointer
suppresses the `DoubleFree`. -/
theorem double_free_exactly_one_finding (fname : String)
    (sp₁ sp₂ sp₃ sp₄ : Span) :
    Anvil.analyzeBody fname
        [.declPtr "p" .newAlloc sp₁,
         .deleteStmt "p" sp₂,
         .deleteStmt "p" sp₃] =
      [⟨"DoubleFree", .error, "double free", sp₃, fname⟩] ∧
    Anvil.analyzeBody fname
        [.declPtr "p" .newAlloc sp₁,
         .deleteStmt "p" sp₂,
         .assignPtr "p" .newAlloc sp₄,
         .deleteStmt "p" sp₃] = [] :=
  ⟨rfl, rfl⟩

/-- C4: parser recovery termination — `parse` is a total computable
function of the finite token stream, so it terminates on every input,
arbitrarily malformed ones included, and its SyntaxError output is a Lean
list and hence finite; moreover the returned tree is always well-formed:
no node has fewer children than its kind mandates, placeholder error
nodes filling the gaps. -/
theorem parse_total_wellFormed (toks : List Token) :
    (Anvil.parse toks).1.wellFormed = true := by
  have h := parseTop_wf (2 * toks.length + 2) toks
  simp [Anvil.parse, SyntaxNode.wellFormed, NodeKind.requiredChildren, h]

/-- C8: every division whose divisor is a literal `0`, or a variable
initialized from a `0` initializer and never written again on the way to
the division, is flagged: the Diagnostic Set contains a `DivisionByZero`
Finding anchored at the division's span. -/
theorem division_by_zero_flagged (fname : String) (pre post : List Stmt)
    (num den : IntExpr) (sp : Span)
    (h : den = .lit 0 ∨
      ∃ y a b sp₀, den = .evar y ∧
        pre = a ++ .declInt y (some (.lit 0)) sp₀ :: b ∧
        writesVarList y b = false) :
    ∃ g ∈ Anvil.analyzeBody fname (pre ++ .divStmt num den sp :: post),
      g.ruleId = "DivisionByZero" ∧ g.span = sp := by
  have hdiv :
      (runStmt fname (runStmts fname emptyState pre).1
        (.divStmt num den sp)).2 =
      readFindings fname (runStmts fname emptyState pre).1 num sp ++
        readFindings fname (runStmts fname emptyState pre).1 den sp ++
        [⟨"DivisionByZero", .error, "division by zero", sp, fname⟩] := by
    rcases h with rfl | ⟨y, a, b, sp₀, rfl, rfl, hw⟩
    · rfl
    · have hstate :
          (runStmts fname emptyState
            (a ++ .declInt y (some (.lit 0)) sp₀ :: b)).1 y =
          .intVar .initialized (some 0) := by
        rw [runStmts_append]
        have hfr := runStmts_preserves fname y
          (runStmt fname (runStmts fname emptyState a).1
            (.declInt y (some (.lit 0)) sp₀)).1 b hw
        simp only [runStmts]
        rw [hfr]
        simp [runStmt, AbsState.update, valOf]
      simp [runStmt, hstate]
  have hmem :
      (⟨"DivisionByZero", .error, "division by zero", sp, fname⟩ : Finding) ∈
        (runStmts fname emptyState
          (pre ++ .divStmt num den sp :: post)).2 := by
    rw [runStmts_append]
    simp only [runStmts, List.mem_append]
    refine Or.inr (Or.inl ?_)
    rw [hdiv]
    simp
  have hmem' :
      (⟨"DivisionByZero", .error, "division by zero", sp, fname⟩ : Finding) ∈
        (runStmts fname emptyState
          (pre ++ .divStmt num den sp :: post)).2 ++
        leakFindings fname (pre ++ .divStmt num den sp :: post)
          (runStmts fname emptyState (pre ++ .divStmt num den sp :: post)).1 :=
    List.mem_append_left _ hmem
  obtain ⟨g, hg, hk⟩ := mem_aggregate_key hmem'
  refine ⟨g, hg, ?_, ?_⟩
  · exact congrArg Prod.fst hk
  · exact congrArg (fun p => p.2.1) hk

/-- A span inside the bad-code fixture file. -/
def issueSpan (l c : Nat) : Span :=
  ⟨"static_analysis_issues.cpp", l, c, l, c + 10⟩

/-- Witness for C8 at the `division_by_zero` fixture: a parameter-like
initialization of `x`, `int divisor = 0;`, then `return x / divisor;`. -/
theorem division_by_zero_flagged_witness :
    ∃ g ∈ Anvil.analyzeBody "division_by_zero"
        ([.declInt "x" (some .unknownExpr) (issueSpan 57 24),
          .declInt "divisor" (some (.lit 0)) (issueSpan 58 5)] ++
         .divStmt (.evar "x") (.evar "divisor") (issueSpan 59 5) :: []),
      g.ruleId = "DivisionByZero" ∧ g.span = issueSpan 59 5 :=
  division_by_zero_flagged "division_by_zero"
    [.declInt "x" (some .unknownExpr) (issueSpan 57 24),
     .declInt "divisor" (some (.lit 0)) (issueSpan 58 5)]
    [] (.evar "x") (.evar "divisor") (issueSpan 59 5)
    (Or.inr ⟨"divisor",
      [.declInt "x" (some .unknownExpr) (issueSpan 57 24)], [],
      issueSpan 58 5, rfl, rfl, rfl⟩)

end AnalyzerTheorems

section GoodCodeTheorems

open GoodCode

/-- Helper: `add_all` adds the length of the item list to the count,
whatever processor it starts from. -/
theorem DataProcessor.get_count_add_all (items : List String)
    (p : DataProcessor) :
    (p.add_all items).get_count = p.get_count + items.length := by
  induction items generalizing p with
  | nil => simp [DataProcessor.add_all]
  | cons it rest ih =>
    simp only [DataProcessor.add_all, List.foldl_cons] at *
    rw [ih]
    simp [DataProcessor.add_data, DataProcessor.get_count]
    omega

/-- C9: `add_data(item)` appends `item` to `data_`, increases `get_count()`
by exactly one, and leaves `name_` and `debug_` unchanged; after adding `n`
items to a freshly constructed `DataProcessor`, `get_count()` returns `n`. -/
theorem add_data_frame_and_count (p : DataProcessor) (item : String) :
    ((p.add_data item).1.data_ = p.data_ ++ [item] ∧
     (p.add_data item).1.get_count = p.get_count + 1 ∧
     (p.add_data item).1.name_ = p.name_ ∧
     (p.add_data item).1.debug_ = p.debug_) ∧
    (∀ (name : String) (debug : Bool) (items : List String),
      ((DataProcessor.make name debug).add_all items).get_count =
        items.length) := by
  refine ⟨⟨rfl, ?_, rfl, rfl⟩, ?_⟩
  · simp [DataProcessor.add_data, DataProcessor.get_count]
  · intro name debug items
    rw [DataProcessor.get_count_add_all]
    simp [DataProcessor.make, DataProcessor.get_count]

end GoodCodeTheorems

section TemplateUtilsTheorems

/-- C10: over any totally ordered type, `max`/`min` each return one of their
arguments, bound both arguments from above resp. below, and are commutative
and idempotent as value functions. -/
theorem max_min_total_order_laws {T : Type} [LinearOrder T] (a b : T) :
    (TemplateUtils.max a b = a ∨ TemplateUtils.max a b = b) ∧
    a ≤ TemplateUtils.max a b ∧ b ≤ TemplateUtils.max a b ∧
    (TemplateUtils.min a b = a ∨ TemplateUtils.min a b = b) ∧
    TemplateUtils.min a b ≤ a ∧ TemplateUtils.min a b ≤ b ∧
    TemplateUtils.max a b = TemplateUtils.max b a ∧
    TemplateUtils.min a b = TemplateUtils.min b a ∧
    TemplateUtils.max a a = a ∧ TemplateUtils.min a a = a := by
  unfold TemplateUtils.max TemplateUtils.min
  rcases lt_trichotomy a b with h | h | h
  · simp [h, not_lt_of_gt h, le_of_lt h, lt_irrefl]
  · subst h
    simp [lt_irrefl]
  · simp [h, not_lt_of_gt h, le_of_lt h, lt_irrefl]

end TemplateUtilsTheorems
